import Mathlib

/-!
Verification development for the Godot LSP stdio-to-TCP bridge
(`index.mjs`; the fuller reconnecting variant embedded in the repository
documentation is taken as canonical, as the spec directs).

Part 1 models decoded LSP payloads and the bridge's message-routing state
machine; Part 2 models the byte-level frame codec (`extractMessages` and the
serialization performed by `writeToStdout` / the socket writes).

JSON-RPC payloads are modelled after `JSON.parse`: a `JVal` tree.  A decoded
frame (`Payload`) is either a JSON value or a raw string that failed to parse
(the `catch` branches).  Property access `msg.x` is `getField`; JavaScript
strict equality `===` is `jsStrictEq` (composite values compare by reference
in JS, and values coming from two distinct `JSON.parse` calls are never
reference-equal, so comparing two composites yields `false`; the ids compared
by the bridge are primitives).
-/

inductive JVal where
  | jnull
  | jbool (b : Bool)
  | jnum (n : Int)
  | jstr (s : String)
  | jarr (xs : List JVal)
  | jobj (fields : List (String × JVal))

inductive Payload where
  | raw (s : String)
  | json (v : JVal)

/-- Property access `v.k` on a parsed JSON value: only objects have
properties (`msg.id` on arrays or primitives is `undefined`, here `none`);
with duplicate keys `JSON.parse` keeps the last occurrence, hence the
`reverse`. -/
def getField (v : JVal) (k : String) : Option JVal :=
  match v with
  | .jobj fs => ((fs.reverse).find? (fun kv => kv.1 == k)).map (fun kv => kv.2)
  | _ => none

/-- JavaScript `===` on two defined JSON values (see module comment about
composites). -/
def jsStrictEq : JVal → JVal → Bool
  | .jnull, .jnull => true
  | .jbool a, .jbool b => a == b
  | .jnum a, .jnum b => a == b
  | .jstr a, .jstr b => a == b
  | _, _ => false

/-! URI normalization (`normalizeFileUri` / `normalizeUrisInObject`). -/

def charsPrefix : List Char → List Char → Bool
  | [], _ => true
  | _ :: _, [] => false
  | a :: as, b :: bs => a == b && charsPrefix as bs

def filePre : List Char := ['f', 'i', 'l', 'e', ':', '/', '/']

/-- `normalizeFileUri` from the source: strip `file://`, turn backslashes
into slashes, ensure a leading slash, reattach `file://`.  A uri not
starting with `file://` (including the empty string, which the source also
rejects via `!uri`) is returned unchanged. -/
def normalizeFileUri (uri : String) : String :=
  if charsPrefix filePre uri.data then
    let path := (uri.data.drop 7).map (fun c => if c == '\\' then '/' else c)
    match path with
    | [] => String.mk (filePre ++ path)
    | c :: cs =>
      if c == '/' then String.mk (filePre ++ c :: cs)
      else String.mk (filePre ++ '/' :: c :: cs)
  else uri

mutual

/-- `normalizeUrisInObject`: recursively rewrite every string starting with
`file://` (null, booleans and numbers are returned unchanged). -/
def normalizeUrisInObject : JVal → JVal
  | .jnull => .jnull
  | .jbool b => .jbool b
  | .jnum n => .jnum n
  | .jstr s => if charsPrefix filePre s.data then .jstr (normalizeFileUri s) else .jstr s
  | .jarr xs => .jarr (normalizeUriList xs)
  | .jobj fs => .jobj (normalizeUriFields fs)

def normalizeUriList : List JVal → List JVal
  | [] => []
  | x :: xs => normalizeUrisInObject x :: normalizeUriList xs

def normalizeUriFields : List (String × JVal) → List (String × JVal)
  | [] => []
  | (k, w) :: fs => (k, normalizeUrisInObject w) :: normalizeUriFields fs

end

/-- The transform as it acts on a decoded frame: payloads that failed
`JSON.parse` are forwarded untouched (the source's `catch` branch). -/
def normalizePayload : Payload → Payload
  | .raw s => .raw s
  | .json v => .json (normalizeUrisInObject v)

/-!
The bridge's mutable module-level state, gathered in one record.  The raw
byte accumulators (`tcpBuffer`, `stdinBuffer`) live in the byte-level codec
model of Part 2; `shouldKeepRunning` and the timer handles are part of the
shutdown path, outside the runs modelled here (all runs below have
`shouldKeepRunning` true).
-/
structure Bridge where
  tcpConnected : Bool
  isWarmingUp : Bool
  isReconnecting : Bool
  reconnectAttempts : Nat
  pendingMessages : List Payload
  waitingForInitialize : Bool
  initializeRequestId : JVal
  bufferedNotifications : List Payload
  wasInitialized : Bool

/-- The test `msg.method === 'initialize' && msg.id !== undefined` guarding
the tracking assignments in `sendToGodot`. -/
def isInitializeRequest (v : JVal) : Bool :=
  (match getField v "method" with
   | some m => jsStrictEq m (.jstr "initialize")
   | none => false) && (getField v "id").isSome

/-- The tracking part of `sendToGodot` (the `try` block): on an initialize
request set `waitingForInitialize`, record the request id, and reset
`wasInitialized`.  The `getD` default is unreachable: the guard requires the
id to be defined. -/
def trackInitialize (st : Bridge) (p : Payload) : Bridge :=
  match p with
  | .raw _ => st
  | .json v =>
    if isInitializeRequest v then
      { st with waitingForInitialize := true,
                initializeRequestId := (getField v "id").getD .jnull,
                wasInitialized := false }
    else st

/-- `sendToGodot`: track an initialize request, normalize URIs, then either
write to the socket (returned as the output list) or push onto
`pendingMessages`.  The socket-liveness conjuncts of the source's
`tcpConnected && tcpSocket && !tcpSocket.destroyed` are modelled by
`tcpConnected` alone (the runs considered keep them in step). -/
def sendToGodot (st : Bridge) (p : Payload) : Bridge × List Payload :=
  let st1 := trackInitialize st p
  let q := normalizePayload p
  if st1.tcpConnected then (st1, [q])
  else ({ st1 with pendingMessages := st1.pendingMessages ++ [q] }, [])

/-- The test `msg.id === initializeRequestId && msg.result !== undefined`
identifying the awaited initialize response. -/
def respMatch (v : JVal) (tid : JVal) : Bool :=
  (match getField v "id" with
   | some idv => jsStrictEq idv tid
   | none => false) && (getField v "result").isSome

/-- The test `msg.method !== undefined && msg.id === undefined` identifying
a bufferable notification. -/
def notifMatch (v : JVal) : Bool :=
  (getField v "method").isSome && (getField v "id").isNone

/-- `handleGodotMessage`: the inbound (peer-to-client) handler.  Returns the
new state and the payloads written to the local stream, in order.  Note that
every emitted payload is either the incoming one or a previously buffered
one, verbatim: no transform is applied on this path. -/
def handleGodotMessage (st : Bridge) (p : Payload) : Bridge × List Payload :=
  match p with
  | .raw s => (st, [.raw s])
  | .json v =>
    if st.waitingForInitialize then
      if respMatch v st.initializeRequestId then
        ({ st with waitingForInitialize := false, wasInitialized := true,
                   bufferedNotifications := [] },
         .json v :: st.bufferedNotifications)
      else if notifMatch v then
        ({ st with bufferedNotifications := st.bufferedNotifications ++ [.json v] }, [])
      else (st, [.json v])
    else (st, [.json v])

/-- `resetConnectionState`: run before each reconnect attempt.  Clears the
handshake state and the socket (the byte accumulator it also clears lives in
Part 2); note it does not touch `pendingMessages` or `wasInitialized`. -/
def resetConnectionState (st : Bridge) : Bridge :=
  { st with tcpConnected := false,
            waitingForInitialize := false,
            initializeRequestId := .jnull,
            bufferedNotifications := [] }

/-- The frame synthesized by `sendNotificationToClient` on reconnect. -/
def restartNotification : Payload :=
  .json (.jobj
    [("jsonrpc", .jstr "2.0"),
     ("method", .jstr "window/showMessage"),
     ("params", .jobj
       [("type", .jnum 2),
        ("message", .jstr "Godot LSP server restarted. You may need to reopen files for diagnostics.")])])

/-- Events driving the bridge: a decoded frame from stdin, a decoded frame
from the socket, the connect callback firing, the warm-up timer firing, the
socket 'close' event (with the process still meant to run), and the
reconnect timer firing (which runs `resetConnectionState` before the next
attempt). -/
inductive Ev where
  | stdinMsg (p : Payload)
  | tcpMsg (p : Payload)
  | connectOk
  | warmupDone
  | sockClosed
  | reconnectFire

/-- An observable output: a frame written to the TCP transport, or a frame
written to the local stream (stdout). -/
inductive Out where
  | toTcp (p : Payload)
  | toClient (p : Payload)

/-- One event step of the bridge, returning the outputs it emits in order.

  * `stdinMsg`: the stdin `data` callback routes a decoded frame: while
    `!tcpConnected || isWarmingUp` it pushes the raw frame onto
    `pendingMessages` (bypassing `sendToGodot`); otherwise `sendToGodot`.
  * `tcpMsg`: `handleGodotMessage`, outputs going to the local stream.
  * `connectOk`: the connect callback.  When reconnecting: clear the stale
    `pendingMessages`, enter warm-up, and (if a handshake had completed)
    synchronously emit the restart notification; nothing is flushed yet.
    Otherwise (initial connection): flush `pendingMessages` verbatim.
  * `warmupDone`: the warm-up timer: leave warm-up and flush
    `pendingMessages` verbatim.
  * `sockClosed`: the 'close' handler plus `scheduleReconnect`.
  * `reconnectFire`: the reconnect timer body before the connect attempt. -/
def step (st : Bridge) : Ev → Bridge × List Out
  | .stdinMsg p =>
    if !st.tcpConnected || st.isWarmingUp then
      ({ st with pendingMessages := st.pendingMessages ++ [p] }, [])
    else
      ((sendToGodot st p).1, (sendToGodot st p).2.map .toTcp)
  | .tcpMsg p =>
    ((handleGodotMessage st p).1, (handleGodotMessage st p).2.map .toClient)
  | .connectOk =>
    if st.isReconnecting then
      ({ st with tcpConnected := true, reconnectAttempts := 0,
                 pendingMessages := [], isReconnecting := false, isWarmingUp := true },
       if st.wasInitialized then [.toClient restartNotification] else [])
    else
      ({ st with tcpConnected := true, reconnectAttempts := 0, pendingMessages := [] },
       st.pendingMessages.map .toTcp)
  | .warmupDone =>
    ({ st with isWarmingUp := false, pendingMessages := [] },
     st.pendingMessages.map .toTcp)
  | .sockClosed =>
    ({ st with tcpConnected := false, isReconnecting := true,
               reconnectAttempts := st.reconnectAttempts + 1 }, [])
  | .reconnectFire => (resetConnectionState st, [])

/-- Run a sequence of events, concatenating the outputs in order. -/
def runEvents (st : Bridge) : List Ev → Bridge × List Out
  | [] => (st, [])
  | e :: es =>
    ((runEvents (step st e).1 es).1, (step st e).2 ++ (runEvents (step st e).1 es).2)

/-!
Part 2: the byte-level frame codec.

Buffers are lists of bytes (naturals below 256 in practice; the functions
are total on all naturals).  `extractMessages` follows the source loop:
find the first `\r\n\r\n`, match `Content-Length:\s*(\d+)` case-insensitively
in the header, and either skip a malformed header, wait for more bytes, or
slice out one complete frame and continue.  The regex runs on the UTF-8
decoding of the header; since the pattern is pure ASCII and ASCII characters
decode only from identical single bytes, matching directly on the bytes is
equivalent (`\s` is modelled by its ASCII cases, the only ones that can
occur next to the ASCII pattern here).

The loop is given structural fuel (`extractGo`); each iteration consumes at
least the four delimiter bytes, so `length + 1` units always suffice, and
`extractGo_stable` shows the result does not depend on the exact fuel.
`extractMessages` returns the extracted `(content, contentLength)` pairs in
order together with the unconsumed remainder, exactly as the source's
`onMessage` callback observes them.
-/

def delim : List Nat := [13, 10, 13, 10]

def isPrefixList : List Nat → List Nat → Bool
  | [], _ => true
  | _ :: _, [] => false
  | a :: as, b :: bs => a == b && isPrefixList as bs

/-- `buffer.indexOf(HEADER_DELIMITER)`: index of the first occurrence of the
4-byte delimiter, if any. -/
def findDelim : List Nat → Option Nat
  | [] => none
  | b :: bs =>
    if isPrefixList delim (b :: bs) then some 0
    else (findDelim bs).map (· + 1)

/-- Lower-case an ASCII byte (the `i` regex flag). -/
def lowerByte (b : Nat) : Nat := if 65 ≤ b ∧ b ≤ 90 then b + 32 else b

/-- The bytes of `content-length:`. -/
def clKey : List Nat := [99, 111, 110, 116, 101, 110, 116, 45, 108, 101, 110, 103, 116, 104, 58]

/-- The bytes of `Content-Length: ` as emitted by serialization. -/
def clHeaderPre : List Nat :=
  [67, 111, 110, 116, 101, 110, 116, 45, 76, 101, 110, 103, 116, 104, 58, 32]

def isDigitB (b : Nat) : Bool := decide (48 ≤ b ∧ b ≤ 57)

/-- ASCII cases of the regex class `\s`. -/
def isSpaceB (b : Nat) : Bool := decide (b = 32 ∨ b = 9 ∨ b = 10 ∨ b = 11 ∨ b = 12 ∨ b = 13)

/-- Case-insensitive match of `key` against the head of `l`. -/
def keyMatch : List Nat → List Nat → Bool
  | [], _ => true
  | _ :: _, [] => false
  | k :: ks, b :: bs => k == lowerByte b && keyMatch ks bs

/-- `parseInt` on a nonempty digit string, most significant digit first. -/
def digitsVal (ds : List Nat) : Nat := ds.foldl (fun a d => a * 10 + (d - 48)) 0

/-- Attempt the regex `Content-Length:\s*(\d+)` (case-insensitive) anchored
at the current position: the key, then whitespace, then at least one digit. -/
def matchCLAt (l : List Nat) : Option Nat :=
  if keyMatch clKey l then
    let ds := ((l.drop 15).dropWhile isSpaceB).takeWhile isDigitB
    if ds.isEmpty then none else some (digitsVal ds)
  else none

/-- `header.match(/Content-Length:\s*(\d+)/i)`: scan left to right for the
first position where the anchored pattern succeeds. -/
def matchCL : List Nat → Option Nat
  | [] => none
  | b :: bs =>
    match matchCLAt (b :: bs) with
    | some v => some v
    | none => matchCL bs

/-- The extraction loop with structural fuel.  Branches, in source order:
no delimiter (wait for more bytes); malformed header (skip header plus
delimiter and retry); body not fully received (wait, keeping the header);
one complete frame (emit it and continue on the remainder). -/
def extractGo : Nat → List Nat → List (List Nat × Nat) × List Nat
  | 0, b => ([], b)
  | f + 1, b =>
    match findDelim b with
    | none => ([], b)
    | some k =>
      match matchCL (b.take k) with
      | none => extractGo f (b.drop (k + 4))
      | some len =>
        if b.length < k + 4 + len then ([], b)
        else
          (((b.drop (k + 4)).take len, len) :: (extractGo f (b.drop (k + 4 + len))).1,
           (extractGo f (b.drop (k + 4 + len))).2)

/-- `extractMessages`: the source function, returning the emitted
`(content, declared length)` pairs in order and the unconsumed remainder. -/
def extractMessages (b : List Nat) : List (List Nat × Nat) × List Nat :=
  extractGo (b.length + 1) b

/-- One stdin/socket `data` event: append the chunk to the carried-over
remainder and extract (`buffer = Buffer.concat([buffer, chunk]);
buffer = extractMessages(buffer, cb)`). -/
def feedStep (st : List (List Nat × Nat) × List Nat) (c : List Nat) :
    List (List Nat × Nat) × List Nat :=
  (st.1 ++ (extractMessages (st.2 ++ c)).1, (extractMessages (st.2 ++ c)).2)

/-- Deliver a list of chunks one at a time, starting from an empty buffer. -/
def feedChunks (cs : List (List Nat)) : List (List Nat × Nat) × List Nat :=
  cs.foldl feedStep ([], [])

/-- Little-endian decimal digits of `n`, with structural fuel. -/
def natDecDigitsAux : Nat → Nat → List Nat
  | 0, _ => []
  | _ + 1, 0 => []
  | f + 1, n + 1 => ((n + 1) % 10) :: natDecDigitsAux f ((n + 1) / 10)

def natDecDigits (n : Nat) : List Nat := natDecDigitsAux n n

/-- The ASCII bytes of the decimal notation `${n}` produced by the template
string interpolation. -/
def natDigitBytes (n : Nat) : List Nat :=
  if n = 0 then [48] else ((natDecDigits n).reverse).map (· + 48)

/-- The header bytes `Content-Length: ${n}`. -/
def headerBytes (n : Nat) : List Nat := clHeaderPre ++ natDigitBytes n

/-- Serialization of one frame, as performed by `writeToStdout` and by the
socket writes: a header declaring the byte length of the payload, the
delimiter, then the payload bytes verbatim. -/
def serializeFrame (bs : List Nat) : List Nat := headerBytes bs.length ++ delim ++ bs

/-- The UTF-8 bytes of a payload string, as `Buffer.byteLength(s, 'utf8')`
and `Buffer.from(s, 'utf8')` see them. -/
def strBytes (s : String) : List Nat := s.toUTF8.toList.map (fun b => b.toNat)

/-! Part 3: codec lemmas. -/

theorem isPrefixList_length {p l : List Nat} (h : isPrefixList p l = true) :
    p.length ≤ l.length := by
  induction p generalizing l with
  | nil => simp
  | cons a as ih =>
    cases l with
    | nil => simp [isPrefixList] at h
    | cons b bs =>
      simp only [isPrefixList, Bool.and_eq_true] at h
      simpa using ih h.2

theorem isPrefixList_append {p l : List Nat} (e : List Nat)
    (h : isPrefixList p l = true) : isPrefixList p (l ++ e) = true := by
  induction p generalizing l with
  | nil => simp [isPrefixList]
  | cons a as ih =>
    cases l with
    | nil => simp [isPrefixList] at h
    | cons b bs =>
      simp only [isPrefixList, Bool.and_eq_true] at h
      simp only [List.cons_append, isPrefixList, Bool.and_eq_true]
      exact ⟨h.1, ih h.2⟩

theorem isPrefixList_stable {p l : List Nat} (e : List Nat)
    (h : p.length ≤ l.length) : isPrefixList p (l ++ e) = isPrefixList p l := by
  induction p generalizing l with
  | nil => simp [isPrefixList]
  | cons a as ih =>
    cases l with
    | nil => simp at h
    | cons b bs =>
      simp only [List.length_cons, Nat.add_le_add_iff_right] at h
      simp only [List.cons_append, isPrefixList]
      congr 1
      exact ih (by simpa using h)

theorem findDelim_le {l : List Nat} {k : Nat} (h : findDelim l = some k) :
    k + 4 ≤ l.length := by
  induction l generalizing k with
  | nil => simp [findDelim] at h
  | cons b bs ih =>
    cases hp : isPrefixList delim (b :: bs) with
    | true =>
      have hk : k = 0 := by
        simp [findDelim, hp] at h
        omega
      subst hk
      have := isPrefixList_length hp
      simpa [delim] using this
    | false =>
      simp only [findDelim, hp, Bool.false_eq_true, if_false] at h
      rcases Option.map_eq_some'.mp h with ⟨k', hk', rfl⟩
      have := ih hk'
      simp only [List.length_cons]
      omega

theorem findDelim_append {l : List Nat} {k : Nat} (e : List Nat)
    (h : findDelim l = some k) : findDelim (l ++ e) = some k := by
  induction l generalizing k with
  | nil => simp [findDelim] at h
  | cons b bs ih =>
    cases hp : isPrefixList delim (b :: bs) with
    | true =>
      have hk : k = 0 := by
        simp [findDelim, hp] at h
        omega
      subst hk
      have hp2 := isPrefixList_append e hp
      simp only [List.cons_append] at hp2
      simp [findDelim, hp2]
    | false =>
      simp only [findDelim, hp, Bool.false_eq_true, if_false] at h
      rcases Option.map_eq_some'.mp h with ⟨k', hk', rfl⟩
      have hstable : isPrefixList delim (b :: (bs ++ e)) = false := by
        have h1 : isPrefixList delim ((b :: bs) ++ e) = isPrefixList delim (b :: bs) := by
          refine isPrefixList_stable e ?_
          have := findDelim_le hk'
          simp only [delim, List.length_cons, List.length_nil]
          omega
        simp only [List.cons_append] at h1
        rw [h1, hp]
      simp only [List.cons_append, List.append_eq, findDelim, hstable, Bool.false_eq_true,
        if_false, ih hk', Option.map_some']

theorem extractGo_succ (f : Nat) (b : List Nat) :
    extractGo (f + 1) b =
      match findDelim b with
      | none => ([], b)
      | some k =>
        match matchCL (b.take k) with
        | none => extractGo f (b.drop (k + 4))
        | some len =>
          if b.length < k + 4 + len then ([], b)
          else
            (((b.drop (k + 4)).take len, len) :: (extractGo f (b.drop (k + 4 + len))).1,
             (extractGo f (b.drop (k + 4 + len))).2) := rfl

theorem extractGo_none {b : List Nat} (f : Nat) (h : findDelim b = none) :
    extractGo (f + 1) b = ([], b) := by
  rw [extractGo_succ, h]

theorem extractGo_bad {b : List Nat} {k : Nat} (f : Nat) (h : findDelim b = some k)
    (hm : matchCL (b.take k) = none) :
    extractGo (f + 1) b = extractGo f (b.drop (k + 4)) := by
  rw [extractGo_succ, h]
  simp only [hm]

theorem extractGo_wait {b : List Nat} {k len : Nat} (f : Nat) (h : findDelim b = some k)
    (hm : matchCL (b.take k) = some len) (hlt : b.length < k + 4 + len) :
    extractGo (f + 1) b = ([], b) := by
  rw [extractGo_succ, h]
  simp only [hm, hlt, if_true]

theorem extractGo_frame {b : List Nat} {k len : Nat} (f : Nat) (h : findDelim b = some k)
    (hm : matchCL (b.take k) = some len) (hle : k + 4 + len ≤ b.length) :
    extractGo (f + 1) b =
      (((b.drop (k + 4)).take len, len) :: (extractGo f (b.drop (k + 4 + len))).1,
       (extractGo f (b.drop (k + 4 + len))).2) := by
  have hlt : ¬ b.length < k + 4 + len := by omega
  rw [extractGo_succ, h]
  simp only [hm, hlt, if_false]

theorem extractGo_stable (f : Nat) : ∀ (g : Nat) (b : List Nat),
    b.length < f → b.length < g → extractGo f b = extractGo g b := by
  induction f with
  | zero => intro g b hf _; omega
  | succ f ih =>
    intro g b hf hg
    cases g with
    | zero => omega
    | succ g =>
      cases hfd : findDelim b with
      | none => rw [extractGo_none f hfd, extractGo_none g hfd]
      | some k =>
        have hk4 : k + 4 ≤ b.length := findDelim_le hfd
        cases hm : matchCL (b.take k) with
        | none =>
          rw [extractGo_bad f hfd hm, extractGo_bad g hfd hm]
          refine ih g (b.drop (k + 4)) ?_ ?_ <;> simp only [List.length_drop] <;> omega
        | some len =>
          by_cases hlt : b.length < k + 4 + len
          · rw [extractGo_wait f hfd hm hlt, extractGo_wait g hfd hm hlt]
          · have hle : k + 4 + len ≤ b.length := by omega
            rw [extractGo_frame f hfd hm hle, extractGo_frame g hfd hm hle,
              ih g (b.drop (k + 4 + len)) (by simp only [List.length_drop]; omega)
                (by simp only [List.length_drop]; omega)]

theorem extract_no_delim {b : List Nat} (h : findDelim b = none) :
    extractMessages b = ([], b) := extractGo_none b.length h

theorem extract_bad_header {b : List Nat} {k : Nat} (h : findDelim b = some k)
    (hm : matchCL (b.take k) = none) :
    extractMessages b = extractMessages (b.drop (k + 4)) := by
  have hk4 : k + 4 ≤ b.length := findDelim_le h
  rw [extractMessages, extractGo_bad b.length h hm, extractMessages]
  refine extractGo_stable b.length ((b.drop (k + 4)).length + 1) (b.drop (k + 4)) ?_ ?_ <;>
    simp only [List.length_drop] <;> omega

theorem extract_incomplete {b : List Nat} {k len : Nat} (h : findDelim b = some k)
    (hm : matchCL (b.take k) = some len) (hlt : b.length < k + 4 + len) :
    extractMessages b = ([], b) := extractGo_wait b.length h hm hlt

theorem extract_complete {b : List Nat} {k len : Nat} (h : findDelim b = some k)
    (hm : matchCL (b.take k) = some len) (hle : k + 4 + len ≤ b.length) :
    extractMessages b =
      (((b.drop (k + 4)).take len, len) :: (extractMessages (b.drop (k + 4 + len))).1,
       (extractMessages (b.drop (k + 4 + len))).2) := by
  have hk4 : k + 4 ≤ b.length := findDelim_le h
  have hrw : extractGo b.length (b.drop (k + 4 + len)) =
      extractMessages (b.drop (k + 4 + len)) := by
    refine extractGo_stable b.length ((b.drop (k + 4 + len)).length + 1)
      (b.drop (k + 4 + len)) ?_ ?_ <;> simp only [List.length_drop] <;> omega
  rw [extractMessages, extractGo_frame b.length h hm hle, hrw]

theorem extract_append_bounded : ∀ (n : Nat) (b e : List Nat), b.length ≤ n →
    extractMessages (b ++ e) =
      ((extractMessages b).1 ++ (extractMessages ((extractMessages b).2 ++ e)).1,
       (extractMessages ((extractMessages b).2 ++ e)).2) := by
  intro n
  induction n with
  | zero =>
    intro b e hb
    have hnil : b = [] := List.eq_nil_of_length_eq_zero (by omega)
    subst hnil
    have h0 : extractMessages ([] : List Nat) = ([], []) :=
      extract_no_delim (by simp [findDelim])
    simp [h0]
  | succ n ih =>
    intro b e hb
    cases hfd : findDelim b with
    | none =>
      rw [extract_no_delim hfd]
      simp
    | some k =>
      have hk4 : k + 4 ≤ b.length := findDelim_le hfd
      have hfd2 : findDelim (b ++ e) = some k := findDelim_append e hfd
      have htake : (b ++ e).take k = b.take k :=
        List.take_append_of_le_length (by omega)
      cases hm : matchCL (b.take k) with
      | none =>
        have hdrop : (b ++ e).drop (k + 4) = b.drop (k + 4) ++ e :=
          List.drop_append_of_le_length (by omega)
        rw [extract_bad_header hfd2 (htake ▸ hm), hdrop,
          extract_bad_header hfd hm]
        exact ih (b.drop (k + 4)) e (by simp only [List.length_drop]; omega)
      | some len =>
        by_cases hlt : b.length < k + 4 + len
        · rw [extract_incomplete hfd hm hlt]
          simp
        · have hle : k + 4 + len ≤ b.length := by omega
          have hle2 : k + 4 + len ≤ (b ++ e).length := by
            simp only [List.length_append]; omega
          have hdrop1 : (b ++ e).drop (k + 4) = b.drop (k + 4) ++ e :=
            List.drop_append_of_le_length (by omega)
          have hdrop2 : (b ++ e).drop (k + 4 + len) = b.drop (k + 4 + len) ++ e :=
            List.drop_append_of_le_length (by omega)
          have htk : ((b ++ e).drop (k + 4)).take len = (b.drop (k + 4)).take len := by
            rw [hdrop1]
            exact List.take_append_of_le_length (by simp only [List.length_drop]; omega)
          rw [extract_complete hfd2 (htake ▸ hm) hle2, extract_complete hfd hm hle,
            htk, hdrop2]
          have := ih (b.drop (k + 4 + len)) e (by simp only [List.length_drop]; omega)
          rw [this]
          simp

/-- Appending more bytes to a buffer extends the extraction result:
the already-extractable frames come out unchanged, and extraction continues
on the carried-over remainder followed by the new bytes. -/
theorem extract_append (b e : List Nat) :
    extractMessages (b ++ e) =
      ((extractMessages b).1 ++ (extractMessages ((extractMessages b).2 ++ e)).1,
       (extractMessages ((extractMessages b).2 ++ e)).2) :=
  extract_append_bounded b.length b e (Nat.le_refl _)

theorem extract_idem_bounded : ∀ (n : Nat) (b : List Nat), b.length ≤ n →
    extractMessages (extractMessages b).2 = ([], (extractMessages b).2) := by
  intro n
  induction n with
  | zero =>
    intro b hb
    have hnil : b = [] := List.eq_nil_of_length_eq_zero (by omega)
    subst hnil
    have h0 : extractMessages ([] : List Nat) = ([], []) :=
      extract_no_delim (by simp [findDelim])
    simp [h0]
  | succ n ih =>
    intro b hb
    cases hfd : findDelim b with
    | none =>
      rw [extract_no_delim hfd]
      exact extract_no_delim hfd
    | some k =>
      have hk4 : k + 4 ≤ b.length := findDelim_le hfd
      cases hm : matchCL (b.take k) with
      | none =>
        rw [extract_bad_header hfd hm]
        exact ih (b.drop (k + 4)) (by simp only [List.length_drop]; omega)
      | some len =>
        by_cases hlt : b.length < k + 4 + len
        · rw [extract_incomplete hfd hm hlt]
          exact extract_incomplete hfd hm hlt
        · have hle : k + 4 + len ≤ b.length := by omega
          rw [extract_complete hfd hm hle]
          exact ih (b.drop (k + 4 + len)) (by simp only [List.length_drop]; omega)

/-- The remainder left by extraction is quiescent: running extraction on it
again yields nothing new. -/
theorem extract_idem (b : List Nat) :
    extractMessages (extractMessages b).2 = ([], (extractMessages b).2) :=
  extract_idem_bounded b.length b (Nat.le_refl _)

theorem feed_fold : ∀ (cs : List (List Nat)) (ms : List (List Nat × Nat)) (rem : List Nat),
    extractMessages rem = ([], rem) →
    cs.foldl feedStep (ms, rem) =
      (ms ++ (extractMessages (rem ++ cs.flatten)).1, (extractMessages (rem ++ cs.flatten)).2) := by
  intro cs
  induction cs with
  | nil =>
    intro ms rem hq
    simp [hq]
  | cons c cs ih =>
    intro ms rem hq
    have hstep : feedStep (ms, rem) c =
        (ms ++ (extractMessages (rem ++ c)).1, (extractMessages (rem ++ c)).2) := rfl
    have hq2 : extractMessages (extractMessages (rem ++ c)).2 =
        ([], (extractMessages (rem ++ c)).2) := extract_idem (rem ++ c)
    calc (c :: cs).foldl feedStep (ms, rem)
        = cs.foldl feedStep (feedStep (ms, rem) c) := rfl
      _ = ((ms ++ (extractMessages (rem ++ c)).1) ++
            (extractMessages ((extractMessages (rem ++ c)).2 ++ cs.flatten)).1,
           (extractMessages ((extractMessages (rem ++ c)).2 ++ cs.flatten)).2) := by
          rw [hstep, ih _ _ hq2]
      _ = (ms ++ (extractMessages (rem ++ (c :: cs).flatten)).1,
           (extractMessages (rem ++ (c :: cs).flatten)).2) := by
          have := extract_append (rem ++ c) cs.flatten
          simp only [List.flatten_cons, ← List.append_assoc]
          rw [this]
          simp [List.append_assoc]

/-- C2: for every byte sequence and every partition of it into chunks
(one-byte-at-a-time included), feeding the chunks incrementally — appending
each chunk to the carried-over remainder and extracting — emits exactly the
payload sequence of a single extraction of the full concatenation, in the
same order, and carries exactly the same unconsumed remainder.  Stated for
all byte sequences, so in particular for every encoding of a valid frame
sequence. -/
theorem chunked_extraction_eq_whole (chunks : List (List Nat)) :
    feedChunks chunks = extractMessages chunks.flatten := by
  have h0 : extractMessages ([] : List Nat) = ([], []) :=
    extract_no_delim (by simp [findDelim])
  rw [feedChunks, feed_fold chunks [] [] h0]
  simp

/-! Serialization lemmas: the emitted header parses back to the declared
length, and a serialized frame extracts to exactly its payload. -/

def ofDigitsLE : List Nat → Nat
  | [] => 0
  | d :: ds => d + 10 * ofDigitsLE ds

theorem ofDigitsLE_natDecDigitsAux : ∀ (f n : Nat), n ≤ f →
    ofDigitsLE (natDecDigitsAux f n) = n := by
  intro f
  induction f with
  | zero =>
    intro n hn
    have : n = 0 := by omega
    subst this
    simp [natDecDigitsAux, ofDigitsLE]
  | succ f ih =>
    intro n hn
    cases n with
    | zero => simp [natDecDigitsAux, ofDigitsLE]
    | succ m =>
      have hdiv : (m + 1) / 10 ≤ f := by
        have := Nat.div_lt_self (Nat.succ_pos m) (by omega : 1 < 10)
        omega
      simp only [natDecDigitsAux, ofDigitsLE, ih _ hdiv]
      omega

theorem natDecDigitsAux_lt : ∀ (f n d : Nat), d ∈ natDecDigitsAux f n → d < 10 := by
  intro f
  induction f with
  | zero => intro n d h; simp [natDecDigitsAux] at h
  | succ f ih =>
    intro n d h
    cases n with
    | zero => simp [natDecDigitsAux] at h
    | succ m =>
      simp only [natDecDigitsAux, List.mem_cons] at h
      rcases h with rfl | h
      · exact Nat.mod_lt _ (by omega)
      · exact ih _ _ h

theorem natDigitBytes_mem {n d : Nat} (h : d ∈ natDigitBytes n) : 48 ≤ d ∧ d ≤ 57 := by
  by_cases h0 : n = 0
  · subst h0
    simp [natDigitBytes] at h
    omega
  · simp only [natDigitBytes, h0, if_false, List.mem_map, List.mem_reverse] at h
    rcases h with ⟨x, hx, rfl⟩
    have := natDecDigitsAux_lt n n x hx
    omega

theorem digitsVal_reverse_map : ∀ ds : List Nat,
    digitsVal ((ds.reverse).map (· + 48)) = ofDigitsLE ds := by
  intro ds
  induction ds with
  | nil => simp [digitsVal, ofDigitsLE]
  | cons d tl ih =>
    simp only [ofDigitsLE, List.reverse_cons, List.map_append, List.map_cons, List.map_nil]
    simp only [digitsVal, List.foldl_append, List.foldl_cons, List.foldl_nil] at ih ⊢
    rw [ih]
    omega

theorem digitsVal_natDigitBytes (n : Nat) : digitsVal (natDigitBytes n) = n := by
  by_cases h0 : n = 0
  · subst h0; simp [natDigitBytes, digitsVal]
  · simp only [natDigitBytes, h0, if_false]
    rw [digitsVal_reverse_map]
    exact ofDigitsLE_natDecDigitsAux n n (Nat.le_refl _)

theorem natDigitBytes_ne_nil (n : Nat) : natDigitBytes n ≠ [] := by
  by_cases h0 : n = 0
  · subst h0; simp [natDigitBytes]
  · simp only [natDigitBytes, h0, if_false]
    intro hcon
    have h1 : natDecDigits n ≠ [] := by
      unfold natDecDigits
      cases n with
      | zero => omega
      | succ m => simp [natDecDigitsAux]
    simp only [List.map_eq_nil_iff, List.reverse_eq_nil_iff] at hcon
    exact h1 hcon

/-- A buffer that starts with delimiter-free bytes followed by the delimiter
finds its first delimiter exactly there. -/
theorem findDelim_clean_header : ∀ (h r : List Nat), (∀ x ∈ h, x ≠ 13) →
    findDelim (h ++ delim ++ r) = some h.length := by
  intro h
  induction h with
  | nil =>
    intro r _
    have : isPrefixList delim (delim ++ r) = true := by
      simp [delim, isPrefixList, List.cons_append]
    simp only [List.nil_append, List.length_nil]
    rw [show delim ++ r = 13 :: (10 :: 13 :: 10 :: r) by simp [delim]]
    simp only [findDelim]
    rw [show (13 : Nat) :: 10 :: 13 :: 10 :: r = delim ++ r by simp [delim], this]
    simp
  | cons x h ih =>
    intro r hmem
    have hx : x ≠ 13 := hmem x (by simp)
    have hpre : isPrefixList delim (x :: (h ++ delim ++ r)) = false := by
      simp only [delim, isPrefixList]
      have : (13 == x) = false := by
        simp only [beq_eq_false_iff_ne, ne_eq]
        omega
      simp [this]
    simp only [List.cons_append, findDelim, List.append_eq, List.append_assoc] at hpre ⊢
    simp only [hpre, Bool.false_eq_true, if_false]
    rw [show (h ++ (delim ++ r)) = h ++ delim ++ r by simp,
      ih r (fun y hy => hmem y (by simp [hy])), Option.map_some']
    simp

theorem headerBytes_no_cr {n x : Nat} (h : x ∈ headerBytes n) : x ≠ 13 := by
  simp only [headerBytes, List.mem_append] at h
  rcases h with h | h
  · revert h
    simp [clHeaderPre]
    omega
  · have := natDigitBytes_mem h
    omega

theorem takeWhile_digits {ds : List Nat} (h : ∀ d ∈ ds, 48 ≤ d ∧ d ≤ 57) :
    ds.takeWhile isDigitB = ds := by
  induction ds with
  | nil => simp
  | cons d tl ih =>
    have hd := h d (by simp)
    have : isDigitB d = true := by simp [isDigitB]; omega
    simp only [List.takeWhile_cons, this, if_true]
    rw [ih (fun x hx => h x (by simp [hx]))]

theorem dropWhile_digits {ds : List Nat} (h : ∀ d ∈ ds, 48 ≤ d ∧ d ≤ 57) :
    ds.dropWhile isSpaceB = ds := by
  cases ds with
  | nil => simp
  | cons d tl =>
    have hd := h d (by simp)
    have : isSpaceB d = false := by simp [isSpaceB]; omega
    simp [List.dropWhile_cons, this]

/-- The serialized header `Content-Length: ${n}` parses back to `n`. -/
theorem matchCL_headerBytes (n : Nat) : matchCL (headerBytes n) = some n := by
  have hkey : ∀ t : List Nat, keyMatch clKey (clHeaderPre ++ t) = true := fun t => rfl
  have hdrop : ∀ t : List Nat, (clHeaderPre ++ t).drop 15 = 32 :: t := fun t => rfl
  have hmem : ∀ d ∈ natDigitBytes n, 48 ≤ d ∧ d ≤ 57 := fun d hd => natDigitBytes_mem hd
  have hcons : headerBytes n = 67 :: (clHeaderPre.drop 1 ++ natDigitBytes n) := by
    simp [headerBytes, clHeaderPre]
  rw [hcons, matchCL]
  have hat : matchCLAt (67 :: (clHeaderPre.drop 1 ++ natDigitBytes n)) = some n := by
    have hc : (67 : Nat) :: (clHeaderPre.drop 1 ++ natDigitBytes n) =
        clHeaderPre ++ natDigitBytes n := by simp [clHeaderPre]
    rw [hc, matchCLAt]
    rw [hkey, if_pos rfl, hdrop]
    have hsp : isSpaceB 32 = true := by simp [isSpaceB]
    rw [show (32 :: natDigitBytes n).dropWhile isSpaceB = (natDigitBytes n).dropWhile isSpaceB by
      simp [List.dropWhile_cons, hsp]]
    rw [dropWhile_digits hmem, takeWhile_digits hmem]
    have hne : (natDigitBytes n).isEmpty = false := by
      simp [List.isEmpty_iff]
      exact natDigitBytes_ne_nil n
    simp only [hne, Bool.false_eq_true, if_false]
    rw [digitsVal_natDigitBytes]
  rw [hat]

/-- Extracting a serialized frame followed by anything yields that frame
first, then whatever the rest yields. -/
theorem serialize_extract (bs rest : List Nat) :
    extractMessages (serializeFrame bs ++ rest) =
      ((bs, bs.length) :: (extractMessages rest).1, (extractMessages rest).2) := by
  have hassoc : serializeFrame bs ++ rest =
      headerBytes bs.length ++ delim ++ (bs ++ rest) := by
    simp [serializeFrame, List.append_assoc]
  have hfd : findDelim (serializeFrame bs ++ rest) = some (headerBytes bs.length).length := by
    rw [hassoc]
    exact findDelim_clean_header _ _ (fun x hx => headerBytes_no_cr hx)
  set k := (headerBytes bs.length).length with hk
  have htake : (serializeFrame bs ++ rest).take k = headerBytes bs.length := by
    rw [hassoc, show headerBytes bs.length ++ delim ++ (bs ++ rest) =
      headerBytes bs.length ++ (delim ++ (bs ++ rest)) by simp [List.append_assoc]]
    exact List.take_left _ _
  have hm : matchCL ((serializeFrame bs ++ rest).take k) = some bs.length := by
    rw [htake]; exact matchCL_headerBytes bs.length
  have hdelimlen : delim.length = 4 := rfl
  have hlen : (serializeFrame bs ++ rest).length = k + 4 + bs.length + rest.length := by
    simp [serializeFrame, hk]
    omega
  have hle : k + 4 + bs.length ≤ (serializeFrame bs ++ rest).length := by omega
  have hdrop1 : (serializeFrame bs ++ rest).drop (k + 4) = bs ++ rest := by
    rw [hassoc]
    have : headerBytes bs.length ++ delim ++ (bs ++ rest) =
        (headerBytes bs.length ++ delim) ++ (bs ++ rest) := by simp [List.append_assoc]
    rw [this]
    refine List.drop_left' ?_
    simp [hk, delim]
  have hdrop2 : (serializeFrame bs ++ rest).drop (k + 4 + bs.length) = rest := by
    have : serializeFrame bs ++ rest = (serializeFrame bs) ++ rest := rfl
    rw [this]
    refine List.drop_left' ?_
    simp [serializeFrame, hk]
    omega
  rw [extract_complete hfd hm hle, hdrop1, hdrop2, List.take_left]

/-- C8: serializing any payload — a header declaring the UTF-8 byte length,
the delimiter, then the payload bytes verbatim — and extracting the
resulting bytes yields back exactly the original payload bytes, with the
declared length equal to the encoded byte count (`(strBytes s).length`, the
number of UTF-8 bytes, not the number of characters), and no leftover. -/
theorem serialize_roundtrip (s : String) :
    extractMessages (serializeFrame (strBytes s)) =
      ([(strBytes s, (strBytes s).length)], []) := by
  have h := serialize_extract (strBytes s) []
  have h0 : extractMessages ([] : List Nat) = ([], []) :=
    extract_no_delim (by simp [findDelim])
  simpa [h0] using h

/-- C7: a header terminated by the 4-byte delimiter but lacking a parseable
Content-Length field is discarded together with its delimiter, extraction
retrying from the next byte (first conjunct); consequently every well-formed
frame following the malformed header in the same buffer decodes correctly
(second conjunct, with an arbitrary serialized frame following it). -/
theorem malformed_header_skipped (header rest p : List Nat)
    (h1 : findDelim (header ++ delim) = some header.length)
    (h2 : matchCL header = none) :
    extractMessages (header ++ delim ++ rest) = extractMessages rest ∧
    (extractMessages (header ++ delim ++ (serializeFrame p ++ rest))).1 =
      (p, p.length) :: (extractMessages rest).1 := by
  have key : ∀ r : List Nat, extractMessages (header ++ delim ++ r) = extractMessages r := by
    intro r
    have hfd : findDelim (header ++ delim ++ r) = some header.length := by
      have := findDelim_append r h1
      simpa [List.append_assoc] using this
    have htake : (header ++ delim ++ r).take header.length = header := by
      rw [show header ++ delim ++ r = header ++ (delim ++ r) by simp [List.append_assoc]]
      exact List.take_left _ _
    have hdrop : (header ++ delim ++ r).drop (header.length + 4) = r := by
      rw [show header ++ delim ++ r = (header ++ delim) ++ r by simp [List.append_assoc]]
      refine List.drop_left' ?_
      simp [delim]
    have hm : matchCL ((header ++ delim ++ r).take header.length) = none := by
      rw [htake]; exact h2
    rw [extract_bad_header hfd hm, hdrop]
  refine ⟨key rest, ?_⟩
  rw [key (serializeFrame p ++ rest), serialize_extract]

/-- Witness for C7 at a concrete malformed header (`Hello` — no
Content-Length) followed by the serialized two-byte frame `{}`. -/
theorem malformed_header_skipped_witness :
    extractMessages ([72, 101, 108, 108, 111] ++ delim ++ []) = extractMessages [] ∧
    (extractMessages ([72, 101, 108, 108, 111] ++ delim ++
      (serializeFrame [123, 125] ++ []))).1 =
      ([123, 125], ([123, 125] : List Nat).length) :: (extractMessages []).1 :=
  malformed_header_skipped [72, 101, 108, 108, 111] [] [123, 125]
    (by decide) (by decide)

/-! Part 4: bridge-level lemmas. -/

theorem runEvents_append (st : Bridge) (a b : List Ev) :
    runEvents st (a ++ b) =
      ((runEvents (runEvents st a).1 b).1,
       (runEvents st a).2 ++ (runEvents (runEvents st a).1 b).2) := by
  induction a generalizing st with
  | nil => simp [runEvents]
  | cons e es ih => simp [runEvents, ih, List.append_assoc]

theorem trackInitialize_tcpConnected (st : Bridge) (p : Payload) :
    (trackInitialize st p).tcpConnected = st.tcpConnected := by
  cases p with
  | raw s => rfl
  | json v =>
    simp only [trackInitialize]
    split <;> rfl

theorem trackInitialize_isWarmingUp (st : Bridge) (p : Payload) :
    (trackInitialize st p).isWarmingUp = st.isWarmingUp := by
  cases p with
  | raw s => rfl
  | json v =>
    simp only [trackInitialize]
    split <;> rfl

theorem trackInitialize_pendingMessages (st : Bridge) (p : Payload) :
    (trackInitialize st p).pendingMessages = st.pendingMessages := by
  cases p with
  | raw s => rfl
  | json v =>
    simp only [trackInitialize]
    split <;> rfl

theorem notifMatch_not_resp {v : JVal} (tid : JVal) (h : notifMatch v = true) :
    respMatch v tid = false := by
  simp only [notifMatch, Bool.and_eq_true, Option.isNone_iff_eq_none] at h
  simp [respMatch, h.2]

theorem handle_passthrough {st : Bridge} (p : Payload)
    (h : st.waitingForInitialize = false) :
    handleGodotMessage st p = (st, [p]) := by
  cases p <;> simp [handleGodotMessage, h]

theorem handle_notif {st : Bridge} {v : JVal} (hw : st.waitingForInitialize = true)
    (hn : notifMatch v = true) :
    handleGodotMessage st (.json v) =
      ({ st with bufferedNotifications := st.bufferedNotifications ++ [.json v] }, []) := by
  simp [handleGodotMessage, hw, hn, notifMatch_not_resp st.initializeRequestId hn]

theorem handle_response {st : Bridge} {v : JVal} (hw : st.waitingForInitialize = true)
    (hr : respMatch v st.initializeRequestId = true) :
    handleGodotMessage st (.json v) =
      ({ st with waitingForInitialize := false, wasInitialized := true,
                 bufferedNotifications := [] },
       .json v :: st.bufferedNotifications) := by
  simp [handleGodotMessage, hw, hr]

theorem runGodot_notifs : ∀ (ns : List Payload) (st : Bridge),
    st.waitingForInitialize = true →
    (∀ p ∈ ns, ∃ v, p = Payload.json v ∧ notifMatch v = true) →
    runEvents st (ns.map Ev.tcpMsg) =
      ({ st with bufferedNotifications := st.bufferedNotifications ++ ns }, []) := by
  intro ns
  induction ns with
  | nil => intro st _ _; simp [runEvents]
  | cons p ns ih =>
    intro st hw hns
    rcases hns p (by simp) with ⟨v, rfl, hn⟩
    have hstep : step st (Ev.tcpMsg (Payload.json v)) =
        ({ st with bufferedNotifications := st.bufferedNotifications ++ [Payload.json v] },
         []) := by
      simp [step, handle_notif hw hn]
    simp only [List.map_cons, runEvents, hstep]
    rw [ih _ (by simp [hw]) (fun q hq => hns q (by simp [hq]))]
    simp [List.append_assoc]

theorem runGodot_passthrough : ∀ (ms : List Payload) (st : Bridge),
    st.waitingForInitialize = false →
    runEvents st (ms.map Ev.tcpMsg) = (st, ms.map Out.toClient) := by
  intro ms
  induction ms with
  | nil => intro st _; simp [runEvents]
  | cons p ms ih =>
    intro st hw
    have hstep : step st (Ev.tcpMsg p) = (st, [Out.toClient p]) := by
      simp [step, handle_passthrough p hw]
    simp only [List.map_cons, runEvents, hstep]
    rw [ih _ hw]
    simp

theorem run_stdin_staged : ∀ (ps : List Payload) (st : Bridge),
    (!st.tcpConnected || st.isWarmingUp) = true →
    runEvents st (ps.map Ev.stdinMsg) =
      ({ st with pendingMessages := st.pendingMessages ++ ps }, []) := by
  intro ps
  induction ps with
  | nil => intro st _; simp [runEvents]
  | cons p ps ih =>
    intro st hc
    have hstep : step st (Ev.stdinMsg p) =
        ({ st with pendingMessages := st.pendingMessages ++ [p] }, []) := by
      simp [step, hc]
    simp only [List.map_cons, runEvents, hstep]
    rw [ih _ (by simpa using hc)]
    simp [List.append_assoc]

theorem run_stdin_connected : ∀ (ps : List Payload) (st : Bridge),
    st.tcpConnected = true → st.isWarmingUp = false →
    (runEvents st (ps.map Ev.stdinMsg)).2 =
      ps.map (fun p => Out.toTcp (normalizePayload p)) ∧
    (runEvents st (ps.map Ev.stdinMsg)).1.tcpConnected = true ∧
    (runEvents st (ps.map Ev.stdinMsg)).1.isWarmingUp = false := by
  intro ps
  induction ps with
  | nil => intro st hc hwm; simp [runEvents, hc, hwm]
  | cons p ps ih =>
    intro st hc hwm
    have hcond : (!st.tcpConnected || st.isWarmingUp) = false := by simp [hc, hwm]
    have hsend : sendToGodot st p = (trackInitialize st p, [normalizePayload p]) := by
      simp only [sendToGodot]
      rw [if_pos (by rw [trackInitialize_tcpConnected]; exact hc)]
    have hstep : step st (Ev.stdinMsg p) =
        (trackInitialize st p, [Out.toTcp (normalizePayload p)]) := by
      simp [step, hcond, hsend]
    have h1 : (trackInitialize st p).tcpConnected = true := by
      rw [trackInitialize_tcpConnected]; exact hc
    have h2 : (trackInitialize st p).isWarmingUp = false := by
      rw [trackInitialize_isWarmingUp]; exact hwm
    rcases ih (trackInitialize st p) h1 h2 with ⟨ho, hc2, hwm2⟩
    simp only [List.map_cons, runEvents, hstep, ho, hc2, hwm2]
    simp

/-! Part 5: claim theorems about the bridge state machine. -/

/-- C1 counterexample: while awaiting the initialize response (tracked id 1),
a parseable message that carries no id but also no method — the empty JSON
object — is relayed to the local stream immediately and is not appended to
the held buffer, contradicting the claim that every parseable id-less
message is held.  The source buffers only messages with
`msg.method !== undefined && msg.id === undefined`. -/
theorem idless_methodless_relayed :
    (handleGodotMessage
      ⟨true, false, false, 0, [], true, .jnum 1, [], false⟩
      (.json (.jobj []))).2 = [.json (.jobj [])] ∧
    (handleGodotMessage
      ⟨true, false, false, 0, [], true, .jnum 1, [], false⟩
      (.json (.jobj []))).1.bufferedNotifications = [] := by
  constructor <;> rfl

/-- C1 (amended): while the bridge awaits the initialize response with
tracked id t, every parseable message carrying a method and no id is held
and not relayed; the first parseable message carrying id t and a result
field is relayed immediately, `waitingForInitialize` becomes false, the held
messages are then relayed in original arrival order and the held buffer is
cleared; everything arriving afterwards passes straight through.  In
particular the wire order A, B, response, C is relayed as response, A, B, C. -/
theorem handshake_reorder (st : Bridge) (ns : List Payload) (r : Payload)
    (after : List Payload)
    (hw : st.waitingForInitialize = true)
    (hb : st.bufferedNotifications = [])
    (hns : ∀ p ∈ ns, ∃ v, p = Payload.json v ∧ notifMatch v = true)
    (hr : ∃ v, r = Payload.json v ∧ respMatch v st.initializeRequestId = true) :
    (runEvents st ((ns ++ r :: after).map Ev.tcpMsg)).2 =
      (r :: (ns ++ after)).map Out.toClient ∧
    (runEvents st ((ns ++ r :: after).map Ev.tcpMsg)).1.waitingForInitialize = false ∧
    (runEvents st ((ns ++ r :: after).map Ev.tcpMsg)).1.bufferedNotifications = [] := by
  rcases hr with ⟨v, rfl, hv⟩
  have hseq : (ns ++ Payload.json v :: after).map Ev.tcpMsg =
      ns.map Ev.tcpMsg ++ (Ev.tcpMsg (Payload.json v) :: after.map Ev.tcpMsg) := by
    simp
  rw [hseq, runEvents_append, runGodot_notifs ns st hw hns]
  set st1 : Bridge := { st with bufferedNotifications := st.bufferedNotifications ++ ns }
  have hw1 : st1.waitingForInitialize = true := hw
  have hv1 : respMatch v st1.initializeRequestId = true := hv
  have hresp := handle_response hw1 hv1
  have hstep : step st1 (Ev.tcpMsg (Payload.json v)) =
      ({ st1 with waitingForInitialize := false, wasInitialized := true,
                  bufferedNotifications := [] },
       Out.toClient (Payload.json v) ::
         (st.bufferedNotifications ++ ns).map Out.toClient) := by
    simp [step, hresp]
  simp only [runEvents, hstep]
  rw [runGodot_passthrough after _ (by rfl)]
  simp [hb]

/-- Witness for the amended C1 at the spec's handshake scenario: wire order
notification A, notification B, response(id=1), notification C is relayed
as response, A, B, C, and the run ends with the reorder buffer off and
empty. -/
theorem handshake_reorder_witness :
    (runEvents ⟨true, false, false, 0, [], true, .jnum 1, [], false⟩
      (([Payload.json (.jobj [("method", .jstr "A")]),
         Payload.json (.jobj [("method", .jstr "B")])] ++
        Payload.json (.jobj [("id", .jnum 1), ("result", .jnull)]) ::
        [Payload.json (.jobj [("method", .jstr "C")])]).map Ev.tcpMsg)).2 =
      (Payload.json (.jobj [("id", .jnum 1), ("result", .jnull)]) ::
        ([Payload.json (.jobj [("method", .jstr "A")]),
          Payload.json (.jobj [("method", .jstr "B")])] ++
         [Payload.json (.jobj [("method", .jstr "C")])])).map Out.toClient :=
  (handshake_reorder ⟨true, false, false, 0, [], true, .jnum 1, [], false⟩
    [Payload.json (.jobj [("method", .jstr "A")]),
     Payload.json (.jobj [("method", .jstr "B")])]
    (Payload.json (.jobj [("id", .jnum 1), ("result", .jnull)]))
    [Payload.json (.jobj [("method", .jstr "C")])]
    rfl rfl
    (by
      intro p hp
      simp only [List.mem_cons, List.not_mem_nil, or_false] at hp
      rcases hp with rfl | rfl
      · exact ⟨_, rfl, rfl⟩
      · exact ⟨_, rfl, rfl⟩)
    ⟨.jobj [("id", .jnum 1), ("result", .jnull)], rfl, rfl⟩).1

/-- C10: while awaiting the initialize response, a parseable message that
carries the tracked id but no result field (such as a JSON-RPC error
response to the initialize request) is relayed to the local stream
immediately with the state completely unchanged — the reorder buffer stays
active and the held frames stay held; they are released only by a
result-bearing message with the tracked id (last conjunct) or discarded by
`resetConnectionState` on reconnect (middle conjuncts). -/
theorem tracked_id_without_result_passthrough (st : Bridge) (v rv : JVal)
    (hw : st.waitingForInitialize = true)
    (hid : ∃ idv, getField v "id" = some idv)
    (hres : getField v "result" = none)
    (hrv : respMatch rv st.initializeRequestId = true) :
    handleGodotMessage st (.json v) = (st, [.json v]) ∧
    (resetConnectionState st).bufferedNotifications = [] ∧
    (resetConnectionState st).waitingForInitialize = false ∧
    (handleGodotMessage st (.json rv)).2 = .json rv :: st.bufferedNotifications ∧
    (handleGodotMessage st (.json rv)).1.bufferedNotifications = [] := by
  rcases hid with ⟨idv, hidv⟩
  have hresp : respMatch v st.initializeRequestId = false := by
    simp [respMatch, hres]
  have hnot : notifMatch v = false := by
    simp [notifMatch, hidv]
  refine ⟨?_, rfl, rfl, ?_, ?_⟩
  · simp [handleGodotMessage, hw, hresp, hnot]
  · simp [handle_response hw hrv]
  · simp [handle_response hw hrv]

/-- Witness for C10: a concrete error response to initialize id 1 passes
through unchanged while a buffered notification is held, and the real
response releases the held frame. -/
theorem tracked_id_without_result_passthrough_witness :
    handleGodotMessage
        ⟨true, false, false, 0, [], true, .jnum 1,
          [Payload.json (.jobj [("method", .jstr "A")])], false⟩
        (.json (.jobj [("id", .jnum 1), ("error", .jobj [])])) =
      (⟨true, false, false, 0, [], true, .jnum 1,
          [Payload.json (.jobj [("method", .jstr "A")])], false⟩,
       [.json (.jobj [("id", .jnum 1), ("error", .jobj [])])]) ∧
    (handleGodotMessage
        ⟨true, false, false, 0, [], true, .jnum 1,
          [Payload.json (.jobj [("method", .jstr "A")])], false⟩
        (.json (.jobj [("id", .jnum 1), ("result", .jnull)]))).2 =
      .json (.jobj [("id", .jnum 1), ("result", .jnull)]) ::
        [Payload.json (.jobj [("method", .jstr "A")])] :=
  ⟨(tracked_id_without_result_passthrough
      ⟨true, false, false, 0, [], true, .jnum 1,
        [Payload.json (.jobj [("method", .jstr "A")])], false⟩
      (.jobj [("id", .jnum 1), ("error", .jobj [])])
      (.jobj [("id", .jnum 1), ("result", .jnull)]) rfl ⟨.jnum 1, rfl⟩ rfl rfl).1,
   (tracked_id_without_result_passthrough
      ⟨true, false, false, 0, [], true, .jnum 1,
        [Payload.json (.jobj [("method", .jstr "A")])], false⟩
      (.jobj [("id", .jnum 1), ("error", .jobj [])])
      (.jobj [("id", .jnum 1), ("result", .jnull)]) rfl ⟨.jnum 1, rfl⟩ rfl rfl).2.2.2.1⟩

/-- C9 counterexample: a peer-to-client message whose payload the URI
transform would rewrite (a Windows-style `file://` URI string) is relayed to
the local stream verbatim, even though the transform is not the identity on
it — so the transform is not applied to every decoded payload in both
directions. -/
theorem inbound_not_transformed :
    (handleGodotMessage ⟨true, false, false, 0, [], false, .jnull, [], true⟩
        (.json (.jstr "file://C:\\proj\\a.gd"))).2 =
      [.json (.jstr "file://C:\\proj\\a.gd")] ∧
    normalizePayload (.json (.jstr "file://C:\\proj\\a.gd")) ≠
      .json (.jstr "file://C:\\proj\\a.gd") := by
  constructor
  · rfl
  · intro hcon
    simp only [normalizePayload, Payload.json.injEq] at hcon
    have hpre : charsPrefix filePre ("file://C:\\proj\\a.gd").data = true := by decide
    rw [normalizeUrisInObject, hpre, if_pos rfl] at hcon
    simp only [JVal.jstr.injEq] at hcon
    have : normalizeFileUri "file://C:\\proj\\a.gd" = "file:///C:/proj/a.gd" := by decide
    rw [this] at hcon
    exact absurd hcon (by decide)

/-- C9 (amended): the URI-normalization transform is applied to every
client-to-peer payload that goes through `sendToGodot` — both when written
immediately and when `sendToGodot` itself buffers — but peer-to-client
payloads are relayed to the local stream without the transform, and payloads
staged by the stdin reader while the connection is not deliverable are
drained to the transport without the transform. -/
theorem transform_outbound_only (st st2 st3 st4 : Bridge) (p q : Payload)
    (hconn : st.tcpConnected = true)
    (hdisc : st2.tcpConnected = false)
    (hw : st3.waitingForInitialize = false)
    (hrec : st4.isReconnecting = false) :
    (sendToGodot st p).2 = [normalizePayload p] ∧
    (sendToGodot st2 p).2 = [] ∧
    (sendToGodot st2 p).1.pendingMessages =
      st2.pendingMessages ++ [normalizePayload p] ∧
    handleGodotMessage st3 q = (st3, [q]) ∧
    (step st4 Ev.connectOk).2 = st4.pendingMessages.map Out.toTcp := by
  refine ⟨?_, ?_, ?_, handle_passthrough q hw, ?_⟩
  · simp only [sendToGodot]
    rw [if_pos (by rw [trackInitialize_tcpConnected]; exact hconn)]
  · simp only [sendToGodot]
    rw [if_neg (by rw [trackInitialize_tcpConnected, hdisc]; exact Bool.false_ne_true)]
  · simp only [sendToGodot]
    rw [if_neg (by rw [trackInitialize_tcpConnected, hdisc]; exact Bool.false_ne_true)]
    simp [trackInitialize_pendingMessages]
  · simp [step, hrec]

/-- Witness for the amended C9 at concrete states and payloads. -/
theorem transform_outbound_only_witness :
    (sendToGodot ⟨true, false, false, 0, [], false, .jnull, [], false⟩
        (.json (.jstr "file://C:\\w.gd"))).2 =
      [normalizePayload (.json (.jstr "file://C:\\w.gd"))] ∧
    handleGodotMessage ⟨true, false, false, 0, [], false, .jnull, [], false⟩
        (.json (.jstr "file://C:\\w.gd")) =
      (⟨true, false, false, 0, [], false, .jnull, [], false⟩,
       [.json (.jstr "file://C:\\w.gd")]) :=
  ⟨(transform_outbound_only
      ⟨true, false, false, 0, [], false, .jnull, [], false⟩
      ⟨false, false, false, 0, [], false, .jnull, [], false⟩
      ⟨true, false, false, 0, [], false, .jnull, [], false⟩
      ⟨true, false, false, 0, [], false, .jnull, [], false⟩
      (.json (.jstr "file://C:\\w.gd")) (.json (.jstr "file://C:\\w.gd"))
      rfl rfl rfl rfl).1,
   (transform_outbound_only
      ⟨true, false, false, 0, [], false, .jnull, [], false⟩
      ⟨false, false, false, 0, [], false, .jnull, [], false⟩
      ⟨true, false, false, 0, [], false, .jnull, [], false⟩
      ⟨true, false, false, 0, [], false, .jnull, [], false⟩
      (.json (.jstr "file://C:\\w.gd")) (.json (.jstr "file://C:\\w.gd"))
      rfl rfl rfl rfl).2.2.2.1⟩

/-- C3 counterexample: a frame staged while disconnected is drained verbatim
(original decoded payload, no URI normalization), while sending the same
frame directly in the deliverable state writes the normalized payload, which
differs — so a drained frame is not re-serialized exactly as it would have
been sent directly. -/
theorem drain_differs_from_direct_send :
    (runEvents ⟨false, false, false, 0, [], false, .jnull, [], false⟩
        [Ev.stdinMsg (.json (.jstr "file://C:\\a.gd")), Ev.connectOk]).2 =
      [Out.toTcp (.json (.jstr "file://C:\\a.gd"))] ∧
    (step ⟨true, false, false, 0, [], false, .jnull, [], false⟩
        (Ev.stdinMsg (.json (.jstr "file://C:\\a.gd")))).2 =
      [Out.toTcp (normalizePayload (.json (.jstr "file://C:\\a.gd")))] ∧
    normalizePayload (.json (.jstr "file://C:\\a.gd")) ≠
      .json (.jstr "file://C:\\a.gd") := by
  refine ⟨rfl, rfl, ?_⟩
  intro hcon
  simp only [normalizePayload, Payload.json.injEq] at hcon
  have hpre : charsPrefix filePre ("file://C:\\a.gd").data = true := by decide
  rw [normalizeUrisInObject, hpre, if_pos rfl] at hcon
  simp only [JVal.jstr.injEq] at hcon
  have : normalizeFileUri "file://C:\\a.gd" = "file:///C:/a.gd" := by decide
  rw [this] at hcon
  exact absurd hcon (by decide)

/-- C3 (amended): frames f1..fn enqueued while the connection is not
deliverable are written to the transport in strict FIFO arrival order when
the connection becomes deliverable, all of them before any frame arriving
after the transition; each drained frame is written as its original decoded
payload with a freshly computed length header, whereas frames sent after
the transition go through the direct path and are URI-normalized, so the
drained bytes can differ from the direct-send serialization.  The last
conjunct shows the warm-up-completion drain also flushes in FIFO order. -/
theorem staging_fifo_drain (st stW : Bridge) (fs gs : List Payload)
    (hconn : st.tcpConnected = false)
    (hrec : st.isReconnecting = false)
    (hwarm : st.isWarmingUp = false)
    (hpend : st.pendingMessages = []) :
    (runEvents st ((fs.map Ev.stdinMsg ++ [Ev.connectOk]) ++ gs.map Ev.stdinMsg)).2 =
      fs.map Out.toTcp ++ gs.map (fun g => Out.toTcp (normalizePayload g)) ∧
    (step stW Ev.warmupDone).2 = stW.pendingMessages.map Out.toTcp := by
  constructor
  · rw [runEvents_append, runEvents_append,
      run_stdin_staged fs st (by simp [hconn])]
    set st1 : Bridge := { st with pendingMessages := st.pendingMessages ++ fs }
    have hstep : step st1 Ev.connectOk =
        ({ st1 with tcpConnected := true, reconnectAttempts := 0, pendingMessages := [] },
         fs.map Out.toTcp) := by
      simp [step, hrec, hpend]
    have hrun1 : runEvents st1 [Ev.connectOk] =
        ({ st1 with tcpConnected := true, reconnectAttempts := 0, pendingMessages := [] },
         fs.map Out.toTcp) := by
      simp [runEvents, hstep]
    rw [hrun1]
    have := run_stdin_connected gs
      { st1 with tcpConnected := true, reconnectAttempts := 0, pendingMessages := [] }
      rfl hwarm
    rw [this.1]
    simp
  · simp [step]

/-- Witness for the amended C3: two frames staged while disconnected drain
in order on connect, before a frame arriving after the transition. -/
theorem staging_fifo_drain_witness :
    (runEvents ⟨false, false, false, 0, [], false, .jnull, [], false⟩
        (([Payload.raw "f1", Payload.raw "f2"].map Ev.stdinMsg ++ [Ev.connectOk]) ++
          [Payload.raw "g1"].map Ev.stdinMsg)).2 =
      [Payload.raw "f1", Payload.raw "f2"].map Out.toTcp ++
        [Payload.raw "g1"].map (fun g => Out.toTcp (normalizePayload g)) :=
  (staging_fifo_drain ⟨false, false, false, 0, [], false, .jnull, [], false⟩
    ⟨true, true, false, 0, [], false, .jnull, [], false⟩
    [Payload.raw "f1", Payload.raw "f2"] [Payload.raw "g1"]
    rfl rfl rfl rfl).1

/-- C4 counterexample: on a reconnect following a completed handshake, the
restart notification is emitted synchronously by the connect callback, while
the warm-up delay is still pending (`isWarmingUp` is true in the resulting
state), and the warm-up completion step itself emits nothing to the local
stream — contradicting the claim that the notification is emitted after the
warm-up delay completes. -/
theorem restart_notification_before_warmup :
    (step ⟨false, false, true, 1, [], false, .jnull, [], true⟩ Ev.connectOk).2 =
      [Out.toClient restartNotification] ∧
    (step ⟨false, false, true, 1, [], false, .jnull, [], true⟩ Ev.connectOk).1.isWarmingUp =
      true ∧
    (step (step ⟨false, false, true, 1, [], false, .jnull, [], true⟩ Ev.connectOk).1
        Ev.warmupDone).2 = [] := by
  refine ⟨rfl, rfl, rfl⟩

/-- C4 (amended): on every successful reconnect after at least one completed
handshake, exactly one restart notification is emitted to the local stream —
synchronously when the reconnection completes, while the warm-up delay is
still pending (not after it) — and before any newly queued traffic is
flushed; an initial (non-reconnect) connection emits only transport frames,
and a reconnect without a completed handshake emits nothing. -/
theorem restart_notification_emission (st stI stN : Bridge) (news : List Payload)
    (hrec : st.isReconnecting = true) (hwi : st.wasInitialized = true)
    (hIrec : stI.isReconnecting = false)
    (hNrec : stN.isReconnecting = true) (hNwi : stN.wasInitialized = false) :
    (runEvents st ((Ev.connectOk :: news.map Ev.stdinMsg) ++ [Ev.warmupDone])).2 =
      Out.toClient restartNotification :: news.map Out.toTcp ∧
    (step st Ev.connectOk).1.isWarmingUp = true ∧
    (step stI Ev.connectOk).2 = stI.pendingMessages.map Out.toTcp ∧
    (step stN Ev.connectOk).2 = [] := by
  refine ⟨?_, by simp [step, hrec], by simp [step, hIrec], by simp [step, hNrec, hNwi]⟩
  have hstep : step st Ev.connectOk =
      ({ st with tcpConnected := true, reconnectAttempts := 0,
                 pendingMessages := [], isReconnecting := false, isWarmingUp := true },
       [Out.toClient restartNotification]) := by
    simp [step, hrec, hwi]
  rw [show (Ev.connectOk :: news.map Ev.stdinMsg) ++ [Ev.warmupDone] =
    Ev.connectOk :: (news.map Ev.stdinMsg ++ [Ev.warmupDone]) by simp]
  simp only [runEvents, hstep]
  rw [runEvents_append, run_stdin_staged news _ (by simp)]
  simp [runEvents, step]

/-- Witness for the amended C4 at a concrete reconnect run with one newly
arriving frame. -/
theorem restart_notification_emission_witness :
    (runEvents ⟨false, false, true, 1, [], false, .jnull, [], true⟩
        ((Ev.connectOk :: [Payload.raw "n1"].map Ev.stdinMsg) ++ [Ev.warmupDone])).2 =
      Out.toClient restartNotification :: [Payload.raw "n1"].map Out.toTcp :=
  (restart_notification_emission
    ⟨false, false, true, 1, [], false, .jnull, [], true⟩
    ⟨false, false, false, 0, [], false, .jnull, [], false⟩
    ⟨false, false, true, 1, [], false, .jnull, [], false⟩
    [Payload.raw "n1"] rfl rfl rfl rfl rfl).1

/-- C5: on a reconnect after a transport close, the staging queue is
replaced with the empty queue at the moment of reconnection: the stale
frames staged before the disconnect appear nowhere in the run's outputs —
they are neither written to the transport nor surfaced to the local stream
(the outputs are independent of `stale`) — while frames arriving after the
reconnect are still delivered, after warm-up, in order.  The final state's
queue is empty. -/
theorem stale_queue_discarded (st : Bridge) (stale news : List Payload)
    (hrec : st.isReconnecting = true)
    (_hpend : st.pendingMessages = stale) :
    (runEvents st (([Ev.reconnectFire, Ev.connectOk] ++ news.map Ev.stdinMsg) ++
        [Ev.warmupDone])).2 =
      (if st.wasInitialized then [Out.toClient restartNotification] else []) ++
        news.map Out.toTcp ∧
    (runEvents st (([Ev.reconnectFire, Ev.connectOk] ++ news.map Ev.stdinMsg) ++
        [Ev.warmupDone])).1.pendingMessages = [] := by
  have hsteps : (step (step st Ev.reconnectFire).1 Ev.connectOk).1 =
      ({ resetConnectionState st with tcpConnected := true, reconnectAttempts := 0, pendingMessages := [], isReconnecting := false, isWarmingUp := true } : Bridge) ∧
      (step (step st Ev.reconnectFire).1 Ev.connectOk).2 =
        (if st.wasInitialized then [Out.toClient restartNotification] else []) := by
    constructor
    · simp [step, resetConnectionState, hrec]
    · simp [step, resetConnectionState, hrec]
  rw [show ([Ev.reconnectFire, Ev.connectOk] ++ news.map Ev.stdinMsg) ++ [Ev.warmupDone] =
    Ev.reconnectFire :: Ev.connectOk :: (news.map Ev.stdinMsg ++ [Ev.warmupDone]) by simp]
  simp only [runEvents, hsteps.1, hsteps.2]
  rw [runEvents_append, run_stdin_staged news _ (by simp)]
  constructor
  · simp [runEvents, step]
  · simp [runEvents, step]

/-- Witness for C5: two stale frames staged before the disconnect vanish,
while a frame arriving after the reconnect is delivered after warm-up. -/
theorem stale_queue_discarded_witness :
    (runEvents ⟨false, false, true, 1, [Payload.raw "s1", Payload.raw "s2"], false,
        .jnull, [], true⟩
        (([Ev.reconnectFire, Ev.connectOk] ++ [Payload.raw "n1"].map Ev.stdinMsg) ++
          [Ev.warmupDone])).2 =
      (if (⟨false, false, true, 1, [Payload.raw "s1", Payload.raw "s2"], false,
          .jnull, [], true⟩ : Bridge).wasInitialized then
        [Out.toClient restartNotification] else []) ++
        [Payload.raw "n1"].map Out.toTcp :=
  (stale_queue_discarded
    ⟨false, false, true, 1, [Payload.raw "s1", Payload.raw "s2"], false, .jnull, [], true⟩
    [Payload.raw "s1", Payload.raw "s2"] [Payload.raw "n1"] rfl rfl).1

/-- C6 at the failing input (code bug): an initialize request that arrives
on stdin while the bridge is disconnected is staged by the stdin reader
without going through `sendToGodot`, and the connect-time drain writes it
directly to the socket — so after the staged request has been sent,
`waitingForInitialize` is still false and no id is tracked (first three
conjuncts), even though sending the same request through the direct
connected path does set the tracking state (last two conjuncts), as the
claim and the spec require for both paths. -/
theorem staged_initialize_not_tracked :
    (runEvents ⟨false, false, false, 0, [], false, .jnull, [], false⟩
        [Ev.stdinMsg (.json (.jobj [("jsonrpc", .jstr "2.0"), ("id", .jnum 1),
          ("method", .jstr "initialize"), ("params", .jobj [])])), Ev.connectOk]).2 =
      [Out.toTcp (.json (.jobj [("jsonrpc", .jstr "2.0"), ("id", .jnum 1),
        ("method", .jstr "initialize"), ("params", .jobj [])]))] ∧
    (runEvents ⟨false, false, false, 0, [], false, .jnull, [], false⟩
        [Ev.stdinMsg (.json (.jobj [("jsonrpc", .jstr "2.0"), ("id", .jnum 1),
          ("method", .jstr "initialize"), ("params", .jobj [])])), Ev.connectOk]).1.waitingForInitialize =
      false ∧
    (runEvents ⟨false, false, false, 0, [], false, .jnull, [], false⟩
        [Ev.stdinMsg (.json (.jobj [("jsonrpc", .jstr "2.0"), ("id", .jnum 1),
          ("method", .jstr "initialize"), ("params", .jobj [])])), Ev.connectOk]).1.initializeRequestId =
      .jnull ∧
    (step ⟨true, false, false, 0, [], false, .jnull, [], false⟩
        (Ev.stdinMsg (.json (.jobj [("jsonrpc", .jstr "2.0"), ("id", .jnum 1),
          ("method", .jstr "initialize"), ("params", .jobj [])])))).1.waitingForInitialize =
      true ∧
    (step ⟨true, false, false, 0, [], false, .jnull, [], false⟩
        (Ev.stdinMsg (.json (.jobj [("jsonrpc", .jstr "2.0"), ("id", .jnum 1),
          ("method", .jstr "initialize"), ("params", .jobj [])])))).1.initializeRequestId =
      .jnum 1 := by
  refine ⟨rfl, rfl, rfl, ?_, ?_⟩ <;> rfl
